import Mathlib

/-
Verification of the face-embedding registry and matching engine.

The engine lives in two JavaScript files of the repository:
  * `src/unnamed/part_001` — the primary Express server: `processSingleImage`,
    `/sync-db`, `/enroll`, `/match` over a registry `facesDB.images` keyed by
    filename (a JS object, hence insertion-ordered), persisted via `saveDB`.
  * `src/backend/human/human.js` — an earlier variant: `cosineSimilarity`, a
    people-keyed registry, and a filename→subject resolver in its `/sync-db`.

Filenames and paths are modelled as `List Char`; embeddings as `List ℚ`
(similarity scores are an opaque comparable scale, see the spec §4.3), except
for `cosineSimilarity` from human.js, whose square roots force `ℝ`.
The embedding extractor (`human.detect`) and the similarity function
(`human.match.similarity`) are external collaborators and appear as function
parameters.
-/

namespace CloakLib

/-- Filenames / paths, as character lists. -/
abbrev FName := List Char

/-- One face embedding vector (scores modelled in `ℚ`). -/
abbrev Emb := List ℚ

/-! ### Identity resolution (part_001 line 100, human.js lines 184–185) -/

/-- `filename.split('_')[0]` from part_001 `processSingleImage` (line 100):
the prefix of the filename before its first underscore (the whole filename
when it has none). -/
def nameOf (f : FName) : FName := f.takeWhile (fun c => c != '_')

/-- Node's `path.parse(base).name`: the prefix before the last dot, or the
whole name when there is no dot (hidden-file leading-dot special case not
modelled; no claim evaluates it there). -/
def stem (f : FName) : FName :=
  if f.contains '.' then ((f.reverse.dropWhile (fun c => c != '.')).drop 1).reverse
  else f

/-- human.js `/sync-db` line 185:
`base.includes('_') ? base.split('_')[0] : path.parse(base).name`. -/
def resolveHuman (f : FName) : FName :=
  if f.contains '_' then f.takeWhile (fun c => c != '_') else stem f

/-! ### C5 : subject-name derivation -/

lemma takeWhile_ne_underscore_append (s r : List Char) (h : ∀ c ∈ s, c ≠ '_') :
    (s ++ '_' :: r).takeWhile (fun c => c != '_') = s := by
  rw [List.takeWhile_append_of_pos (fun c hc => bne_iff_ne.mpr (h c hc))]
  simp

lemma contains_underscore_false {f : List Char} (h : ∀ c ∈ f, c ≠ '_') :
    f.contains '_' = false := by
  by_contra hc
  have : f.contains '_' = true := by
    cases hcv : f.contains '_' with
    | true => rfl
    | false => exact absurd hcv hc
  exact h '_' (List.elem_iff.mp this) rfl

/-- C5 (amended): part_001's `processSingleImage` derives the subject name as
the prefix of the filename before its first underscore, so
`<Subject>_<digits>.<ext>` and `<Subject>_cloaked_<level>.<ext>` (with an
underscore-free `Subject`) resolve to `<Subject>`; a filename with no
underscore resolves to the whole filename (extension included) in part_001,
while human.js's sync resolver maps it to the filename stem. The derivation
is a pure function of the filename. -/
theorem nameDerivation_amended :
    (∀ s r : List Char, (∀ c ∈ s, c ≠ '_') → nameOf (s ++ '_' :: r) = s) ∧
    (∀ f : List Char, (∀ c ∈ f, c ≠ '_') →
      nameOf f = f ∧ resolveHuman f = stem f) := by
  constructor
  · intro s r h
    exact takeWhile_ne_underscore_append s r h
  · intro f h
    constructor
    · exact List.takeWhile_eq_self_iff.mpr (fun c hc => bne_iff_ne.mpr (h c hc))
    · unfold resolveHuman
      rw [contains_underscore_false h]
      simp

/-- C5 counterexample: a key with an underscore but no trailing digit group
(`photo_old.png`) resolves to `photo`, not to its stem `photo_old`, in both
implementations; a key with no underscore (`Alice.jpg`) keeps its extension
in part_001 rather than resolving to the stem `Alice`. -/
theorem nameDerivation_counterexample :
    nameOf ("photo_old.png").data = ("photo").data ∧
    resolveHuman ("photo_old.png").data = ("photo").data ∧
    stem ("photo_old.png").data = ("photo_old").data ∧
    ("photo").data ≠ ("photo_old").data ∧
    nameOf ("Alice.jpg").data = ("Alice.jpg").data ∧
    ("Alice.jpg").data ≠ ("Alice").data := by
  refine ⟨by decide, by decide, by decide, by decide, by decide, by decide⟩

/-- Witness for C5 (amended) at concrete filenames. -/
theorem nameDerivation_amended_witness :
    nameOf (("A").data ++ '_' :: ("1.jpg").data) = ("A").data ∧
    nameOf ("Alice").data = ("Alice").data ∧
    resolveHuman ("Alice").data = stem ("Alice").data :=
  ⟨nameDerivation_amended.1 _ _ (by decide),
   (nameDerivation_amended.2 _ (by decide)).1,
   (nameDerivation_amended.2 _ (by decide)).2⟩

/-! ### Cosine similarity (human.js lines 69–80)

The JS loop runs `i` over `0 .. a.length-1` accumulating `dot`, `na`, `nb`;
the model is stated over same-length inputs (the scope of the claim), where
the loop's partial sums coincide with the full ones below. -/

/-- human.js `cosineSimilarity`: `dot/(√na·√nb)`, `0` when either norm
accumulator is zero (the guard at line 78 precedes the division). -/
noncomputable def cosineSimilarity (a b : List ℝ) : ℝ :=
  let dot := (List.zipWith (fun x y => x * y) a b).sum
  let na := (a.map (fun x => x * x)).sum
  let nb := (b.map (fun x => x * x)).sum
  if na = 0 ∨ nb = 0 then 0 else dot / (Real.sqrt na * Real.sqrt nb)

lemma sumSq_nonneg (a : List ℝ) : 0 ≤ (a.map (fun x => x * x)).sum := by
  apply List.sum_nonneg
  intro x hx
  obtain ⟨y, _, rfl⟩ := List.mem_map.mp hx
  exact mul_self_nonneg y

lemma sumSq_pos {a : List ℝ} {x : ℝ} (hx : x ∈ a) (hx0 : x ≠ 0) :
    0 < (a.map (fun x => x * x)).sum := by
  have hmem : x * x ∈ a.map (fun x => x * x) := List.mem_map.mpr ⟨x, hx, rfl⟩
  have hle : x * x ≤ (a.map (fun x => x * x)).sum :=
    List.single_le_sum (fun y hy => by
      obtain ⟨z, _, rfl⟩ := List.mem_map.mp hy; exact mul_self_nonneg z) _ hmem
  exact lt_of_lt_of_le (mul_self_pos.mpr hx0) hle

lemma zipWith_mul_self (a : List ℝ) :
    List.zipWith (fun x y => x * y) a a = a.map (fun x => x * x) := by
  induction a with
  | nil => rfl
  | cons x xs ih => simp [List.zipWith, ih]

/-- C8: `cosineSimilarity` is symmetric on same-length vectors, equals `1` on
any nonzero vector paired with itself, and returns `0` whenever either
argument has zero norm (sum of squares `0`), never dividing by zero. -/
theorem cosineSimilarity_spec :
    (∀ a b : List ℝ, a.length = b.length →
      cosineSimilarity a b = cosineSimilarity b a) ∧
    (∀ a : List ℝ, (∃ x ∈ a, x ≠ 0) → cosineSimilarity a a = 1) ∧
    (∀ a b : List ℝ,
      (a.map (fun x => x * x)).sum = 0 ∨ (b.map (fun x => x * x)).sum = 0 →
      cosineSimilarity a b = 0) := by
  refine ⟨?_, ?_, ?_⟩
  · intro a b _
    simp only [cosineSimilarity]
    rw [List.zipWith_comm_of_comm (fun x y => x * y) (fun x y => mul_comm x y) a b]
    rcases eq_or_ne ((a.map (fun x => x * x)).sum) 0 with ha | ha <;>
      rcases eq_or_ne ((b.map (fun x => x * x)).sum) 0 with hb | hb <;>
      simp [ha, hb, mul_comm]
  · intro a ⟨x, hx, hx0⟩
    have hpos : 0 < (a.map (fun x => x * x)).sum := sumSq_pos hx hx0
    simp only [cosineSimilarity]
    rw [zipWith_mul_self, if_neg (by push_neg; exact ⟨ne_of_gt hpos, ne_of_gt hpos⟩),
      Real.mul_self_sqrt (le_of_lt hpos), div_self (ne_of_gt hpos)]
  · intro a b h
    simp only [cosineSimilarity]
    rw [if_pos h]

/-- Witness for C8 at concrete vectors. -/
theorem cosineSimilarity_spec_witness :
    cosineSimilarity [(1 : ℝ), 2] [3, 4] = cosineSimilarity [3, 4] [1, 2] ∧
    cosineSimilarity [(2 : ℝ)] [(2 : ℝ)] = 1 ∧
    cosineSimilarity ([] : List ℝ) [(5 : ℝ)] = 0 :=
  ⟨cosineSimilarity_spec.1 _ _ rfl,
   cosineSimilarity_spec.2.1 _ ⟨2, by norm_num⟩,
   cosineSimilarity_spec.2.2 _ _ (Or.inl (by simp))⟩

/-! ### Data model: registry, filesystem, server state (part_001) -/

/-- One `facesDB.images` entry (part_001 lines 99–104). -/
structure Record where
  name : FName
  path : FName
  embeddings : List Emb
  enrolledAt : ℕ
deriving DecidableEq

/-- `facesDB.images`: a JS object keyed by filename, modelled as an
insertion-ordered association list (JS objects preserve insertion order for
non-index string keys such as filenames). -/
abbrev Registry := List (FName × Record)

/-- JS property read `facesDB.images[k]`. -/
def lookupImg (db : Registry) (k : FName) : Option Record :=
  (db.find? (fun p => p.1 == k)).map (fun p => p.2)

/-- JS property write `facesDB.images[k] = r`: overwrite in place when the
key exists, append otherwise. -/
def setRecord : Registry → FName → Record → Registry
  | [], k, r => [(k, r)]
  | (k', r') :: t, k, r =>
    if k' == k then (k, r) :: t else (k', r') :: setRecord t k r

/-- Server state: the in-memory `facesDB` plus the durable `faces-db.json`
contents (replaced by each `saveDB`). -/
structure ServerState where
  db : Registry
  saved : Registry
deriving DecidableEq

/-- The image source: the images directory, its listing, and the set of
paths `fs.existsSync` reports as present. -/
structure FS where
  dir : FName
  dirListing : List FName
  live : List FName
  dirOk : Bool
deriving DecidableEq

/-- `path.join(dir, file)`. -/
def joinPath (dir f : FName) : FName := dir ++ '/' :: f

/-- `fs.existsSync(p)`. -/
def pathLive (fs : FS) (p : FName) : Bool := fs.live.contains p

/-- `path.basename`: the final path segment. -/
def basename (p : FName) : FName :=
  (p.reverse.takeWhile (fun c => c != '/')).reverse

/-- The extension filter of `/sync-db` (part_001 lines 118–121): lower-cased
name ends in `.jpg`, `.jpeg`, `.png` or `.webp`. -/
def isImage (f : FName) : Bool :=
  let l := f.map Char.toLower
  (".jpg").data.isSuffixOf l || (".jpeg").data.isSuffixOf l ||
    (".png").data.isSuffixOf l || (".webp").data.isSuffixOf l

/-- Outcome of part_001 `processSingleImage` (lines 86–107): a missing file
throws (`fileNotFound`), zero detected faces adds nothing (`noFace`),
otherwise the record is stored and flushed (`added`). -/
inductive PSIResult where
  | fileNotFound : PSIResult
  | noFace : PSIResult
  | added : FName → ℕ → PSIResult
deriving DecidableEq

/-- part_001 `processSingleImage`: compute embeddings for `filepath`; when at
least one face is found, store the record under the file's basename, with the
subject name derived by `nameOf`, and flush the registry (`saveDB`). -/
def processSingleImage (extract : FName → List Emb) (fs : FS) (now : ℕ)
    (filepath : FName) (s : ServerState) : ServerState × PSIResult :=
  if pathLive fs filepath = false then (s, .fileNotFound)
  else
    let filename := basename filepath
    let embs := extract filepath
    if embs.isEmpty then (s, .noFace)
    else
      let db' := setRecord s.db filename
        { name := nameOf filename, path := filepath,
          embeddings := embs, enrolledAt := now }
      ({ db := db', saved := db' }, .added filename embs.length)

/-- JSON values appearing in the handlers' response bodies. -/
inductive JVal where
  | b : Bool → JVal
  | s : String → JVal
  | n : ℕ → JVal
deriving DecidableEq

/-- An HTTP response: status code plus JSON object body as a field list. -/
structure HResp where
  status : ℕ
  body : List (String × JVal)
deriving DecidableEq

/-! ### `/sync-db` (part_001 lines 110–153) -/

/-- The add loop of `/sync-db` (lines 132–145): for each eligible file, skip
it when an entry under the same key already records the same path, otherwise
run `processSingleImage` (whose `fileNotFound` throw the loop catches and
skips, and whose `noFace` result only logs). The last component accumulates
every path the extractor was invoked on (`computeEmbeddingsFromPath` runs
only after the existence check). -/
def syncAddLoop (extract : FName → List Emb) (fs : FS) (now : ℕ) :
    List FName → ServerState → ℕ → List FName → ServerState × ℕ × List FName
  | [], s, added, calls => (s, added, calls)
  | f :: rest, s, added, calls =>
    let fp := joinPath fs.dir f
    let skip := match lookupImg s.db f with
      | some e => e.path == fp
      | none => false
    if skip then syncAddLoop extract fs now rest s added calls
    else
      let r := processSingleImage extract fs now fp s
      let calls' := if pathLive fs fp then calls ++ [fp] else calls
      let added' := match r.2 with
        | .added _ _ => added + 1
        | _ => added
      syncAddLoop extract fs now rest r.1 added' calls'

/-- The body of `/sync-db` once the directory exists: delete every entry
whose recorded path no longer exists (lines 124–130), then run the add loop
over the eligible directory listing. -/
def syncCore (extract : FName → List Emb) (fs : FS) (now : ℕ) (s : ServerState) :
    ServerState × ℕ × List FName :=
  syncAddLoop extract fs now (fs.dirListing.filter isImage)
    { db := s.db.filter (fun kr => pathLive fs kr.2.path), saved := s.saved } 0 []

/-- `/sync-db`: removal pass, add loop, final flush (line 147), and the JSON
response with `success`, `message`, `added` and `total` — the handler
computes no `removed` count and its JSON has no such field. The last
component is the extractor-call list of the pass. -/
def syncDB (extract : FName → List Emb) (fs : FS) (now : ℕ) (s : ServerState) :
    ServerState × List (String × JVal) × List FName :=
  if fs.dirOk = false then
    (s, [("success", .b false), ("message", .s "imagesDir not found")], [])
  else
    ({ db := (syncCore extract fs now s).1.db,
       saved := (syncCore extract fs now s).1.db },
     [("success", .b true), ("message", .s "sync complete"),
      ("added", .n (syncCore extract fs now s).2.1),
      ("total", .n (syncCore extract fs now s).1.db.length)],
     (syncCore extract fs now s).2.2)

/-! ### `/enroll` (part_001 lines 157–168) -/

/-- `/enroll`: delegate to `processSingleImage`; a thrown error is caught and
becomes a 500, a no-face result becomes a 400 failure with `reason:no-face`,
success reports the filename and embedding count. -/
def enrollHandler (extract : FName → List Emb) (fs : FS) (now : ℕ)
    (body : Option FName) (s : ServerState) : ServerState × HResp :=
  match body with
  | none => (s, ⟨400, [("success", .b false), ("message", .s "Missing path")]⟩)
  | some p =>
    let r := processSingleImage extract fs now p s
    match r.2 with
    | .fileNotFound =>
      (r.1, ⟨500, [("success", .b false), ("message", .s "File not found")]⟩)
    | .noFace =>
      (r.1, ⟨400, [("success", .b false),
        ("message", .s "No face found or image skipped"),
        ("reason", .s "no-face")]⟩)
    | .added fn c =>
      (r.1, ⟨200, [("success", .b true), ("filename", .s (String.mk fn)),
        ("embeddingsCount", .n c)]⟩)

/-! ### The Matcher (part_001 lines 236–257)

The similarity function (`human.match.similarity`) is an external
collaborator producing an opaque comparable score; it appears as the
parameter `sim`. -/

/-- One result row `{filename, name, similarity}` (line 251). -/
structure MatchCand where
  filename : FName
  name : FName
  similarity : ℚ
deriving DecidableEq

/-- The nested best-pair loop (lines 242–249): starting from `-1`, keep the
largest similarity over all (probe face, candidate face) pairs. -/
def bestSim (sim : Emb → Emb → ℚ) (ps es : List Emb) : ℚ :=
  ps.foldl
    (fun acc p => es.foldl (fun acc e => if sim p e > acc then sim p e else acc) acc)
    (-1)

/-- All pairwise similarities, in loop order. -/
def pairSims (sim : Emb → Emb → ℚ) (ps es : List Emb) : List ℚ :=
  ps.flatMap (fun p => es.map (fun e => sim p e))

/-- The candidate loop (lines 237–253) before the threshold test: every
registry entry other than the probe's own key and with non-empty embeddings
yields one row scored by `bestSim`, in registry (insertion) order. -/
def matchCandidates (sim : Emb → Emb → ℚ) (probeKey : FName)
    (probeEmbs : List Emb) (entries : Registry) : List MatchCand :=
  entries.filterMap (fun kr =>
    if kr.1 == probeKey then none
    else if kr.2.embeddings.isEmpty then none
    else some ⟨kr.1, kr.2.name, bestSim sim probeEmbs kr.2.embeddings⟩)

/-- The threshold test `bestSim >= threshold` (line 250). -/
def aboveThreshold (threshold : ℚ) (l : List MatchCand) : List MatchCand :=
  l.filter (fun c => decide (threshold ≤ c.similarity))

/-- The order of `results.sort((a, b) => b.similarity - a.similarity)`. -/
def simGE (a b : MatchCand) : Prop := b.similarity ≤ a.similarity

instance : DecidableRel simGE :=
  fun a b => inferInstanceAs (Decidable (b.similarity ≤ a.similarity))

instance : IsTotal MatchCand simGE := ⟨fun a b => le_total b.similarity a.similarity⟩

instance : IsTrans MatchCand simGE := ⟨fun _ _ _ h1 h2 => le_trans h2 h1⟩

/-- Line 256: ECMAScript `Array.prototype.sort` is stable, so with the
comparator above it computes the stable descending-similarity sort, which is
insertion sort for `simGE`. -/
def sortDesc (l : List MatchCand) : List MatchCand := l.insertionSort simGE

/-- Lines 250–257 end to end: threshold filter, stable descending sort,
truncation to the first `topk` rows. -/
def matchResults (sim : Emb → Emb → ℚ) (probeKey : FName) (probeEmbs : List Emb)
    (entries : Registry) (threshold : ℚ) (topk : ℕ) : List MatchCand :=
  (sortDesc (aboveThreshold threshold
    (matchCandidates sim probeKey probeEmbs entries))).take topk

/-! ### `/match` (part_001 lines 183–262) -/

/-- The distinct return sites of the `/match` handler. -/
inductive MatchOutcome where
  | missingPath : MatchOutcome
  | probeNotFound : MatchOutcome
  | probeEmbedFailed : MatchOutcome
  | probeMissingAfterProcessing : MatchOutcome
  | ok : FName → List MatchCand → MatchOutcome
deriving DecidableEq

/-- The internal sync of `/match` (lines 195–210): enroll every eligible
default-directory file whose key is absent from the registry; per-file
results and errors are ignored. -/
def matchSyncLoop (extract : FName → List Emb) (fs : FS) (now : ℕ) :
    List FName → ServerState → ServerState
  | [], s => s
  | f :: rest, s =>
    if (lookupImg s.db f).isNone then
      matchSyncLoop extract fs now rest
        (processSingleImage extract fs now (joinPath fs.dir f) s).1
    else matchSyncLoop extract fs now rest s

/-- Lines 232–257: look the probe up in the registry; a missing entry is the
500 `Probe embedding missing after processing` response, otherwise the
matcher runs against the current registry. -/
def finishMatch (sim : Emb → Emb → ℚ) (probeFilename : FName) (s : ServerState)
    (threshold : ℚ) (topk : ℕ) : ServerState × MatchOutcome :=
  match lookupImg s.db probeFilename with
  | none => (s, .probeMissingAfterProcessing)
  | some probeEntry =>
    (s, .ok probeFilename
      (matchResults sim probeFilename probeEntry.embeddings s.db threshold topk))

/-- The condition of line 224: the probe's key is absent from the registry
or its stored embedding list is empty. -/
def needEmbed (db : Registry) (k : FName) : Bool :=
  match lookupImg db k with
  | some e => e.embeddings.isEmpty
  | none => true

/-- Lines 217–257 of `/match`, after the internal sync: probe existence
check, on-demand probe enrollment (a thrown error becoming the 400
`Probe embedding failed` response), then the matcher via `finishMatch`. -/
def matchProbeStage (extract : FName → List Emb) (sim : Emb → Emb → ℚ)
    (fs : FS) (now : ℕ) (probe : FName) (threshold : ℚ) (topk : ℕ)
    (s1 : ServerState) : ServerState × MatchOutcome :=
  if pathLive fs probe = false then (s1, .probeNotFound)
  else
    if needEmbed s1.db (basename probe) then
      match (processSingleImage extract fs now probe s1).2 with
      | .fileNotFound =>
        ((processSingleImage extract fs now probe s1).1, .probeEmbedFailed)
      | _ =>
        finishMatch sim (basename probe)
          (processSingleImage extract fs now probe s1).1 threshold topk
    else finishMatch sim (basename probe) s1 threshold topk

/-- `/match` (part_001 lines 183–262): internal sync of the default images
directory followed by `saveDB` (line 211), then the probe stage. -/
def matchHandler (extract : FName → List Emb) (sim : Emb → Emb → ℚ) (fs : FS)
    (now : ℕ) (probePath : Option FName) (threshold : ℚ) (topk : ℕ)
    (s : ServerState) : ServerState × MatchOutcome :=
  match probePath with
  | none => (s, .missingPath)
  | some probe =>
    matchProbeStage extract sim fs now probe threshold topk
      { db := (if fs.dirOk then
          matchSyncLoop extract fs now (fs.dirListing.filter isImage) s
        else s).db,
        saved := (if fs.dirOk then
          matchSyncLoop extract fs now (fs.dirListing.filter isImage) s
        else s).db }

/-! ### C1 : best-pair score and threshold membership -/

lemma if_gt_eq_max (a x : ℚ) : (if x > a then x else a) = max a x := by
  rcases le_or_lt x a with h | h
  · rw [if_neg (not_lt.mpr h), max_eq_left h]
  · rw [if_pos h, max_eq_right (le_of_lt h)]

lemma foldl_best_eq_foldl_max (sim : Emb → Emb → ℚ) (p : Emb) (es : List Emb)
    (a : ℚ) :
    es.foldl (fun acc e => if sim p e > acc then sim p e else acc) a =
      (es.map (fun e => sim p e)).foldl max a := by
  induction es generalizing a with
  | nil => rfl
  | cons e t ih =>
    simp only [List.foldl_cons, List.map_cons]
    rw [if_gt_eq_max, ih]

lemma bestSim_foldl_aux (sim : Emb → Emb → ℚ) (es : List Emb) :
    ∀ (ps : List Emb) (a : ℚ),
      ps.foldl (fun acc p =>
        es.foldl (fun acc e => if sim p e > acc then sim p e else acc) acc) a =
      (ps.flatMap (fun p => es.map (fun e => sim p e))).foldl max a
  | [], _ => rfl
  | p :: t, a => by
    have hflat : (p :: t).flatMap (fun p => es.map (fun e => sim p e)) =
        es.map (fun e => sim p e) ++ t.flatMap (fun p => es.map (fun e => sim p e)) :=
      rfl
    rw [List.foldl_cons, hflat, List.foldl_append, foldl_best_eq_foldl_max,
      bestSim_foldl_aux sim es t]

/-- `bestSim` is the left fold of `max` over all pairwise similarities,
starting from the loop's initial `-1`. -/
lemma bestSim_eq_foldl_max (sim : Emb → Emb → ℚ) (ps es : List Emb) :
    bestSim sim ps es = (pairSims sim ps es).foldl max (-1) :=
  bestSim_foldl_aux sim es ps (-1)

lemma le_foldl_max (l : List ℚ) (a : ℚ) : a ≤ l.foldl max a := by
  induction l generalizing a with
  | nil => exact le_refl a
  | cons x t ih => exact le_trans (le_max_left a x) (ih (max a x))

lemma foldl_max_le_of_mem {l : List ℚ} {x : ℚ} (h : x ∈ l) (a : ℚ) :
    x ≤ l.foldl max a := by
  induction l generalizing a with
  | nil => cases h
  | cons y t ih =>
    rcases List.mem_cons.mp h with rfl | h'
    · exact le_trans (le_max_right a x) (le_foldl_max t (max a x))
    · exact ih h' (max a y)

lemma foldl_max_mem (l : List ℚ) (a : ℚ) :
    l.foldl max a = a ∨ l.foldl max a ∈ l := by
  induction l generalizing a with
  | nil => exact Or.inl rfl
  | cons x t ih =>
    rw [List.foldl_cons]
    rcases ih (max a x) with h | h
    · rcases max_choice a x with hax | hax
      · exact Or.inl (by rw [h, hax])
      · exact Or.inr (by rw [h, hax]; exact List.mem_cons_self x t)
    · exact Or.inr (List.mem_cons_of_mem x h)

lemma pairSims_ne_nil {sim : Emb → Emb → ℚ} {ps es : List Emb}
    (hp : ps ≠ []) (he : es ≠ []) : pairSims sim ps es ≠ [] := by
  obtain ⟨p, hpm⟩ := List.exists_mem_of_ne_nil ps hp
  obtain ⟨e, hem⟩ := List.exists_mem_of_ne_nil es he
  exact List.ne_nil_of_mem
    (List.mem_flatMap.mpr ⟨p, hpm, List.mem_map.mpr ⟨e, hem, rfl⟩⟩)

/-- C1: for a probe with at least one embedding, a candidate entry other
than the probe's own key whose record has at least one embedding is scored
by `bestSim` as the maximum pairwise similarity (a member of the pairwise
similarities that bounds them all, given that similarities are at least the
loop's initial `-1`), and its row is in the thresholded result list iff that
score is at least the caller-supplied threshold. -/
theorem matcher_score_and_threshold
    (sim : Emb → Emb → ℚ) (probeKey : FName) (probeEmbs : List Emb)
    (entries : Registry) (threshold : ℚ) (fn : FName) (r : Record)
    (hmem : (fn, r) ∈ entries) (hself : fn ≠ probeKey)
    (hp : probeEmbs ≠ []) (he : r.embeddings ≠ [])
    (hb : ∀ q ∈ pairSims sim probeEmbs r.embeddings, -1 ≤ q) :
    (bestSim sim probeEmbs r.embeddings ∈ pairSims sim probeEmbs r.embeddings ∧
      ∀ q ∈ pairSims sim probeEmbs r.embeddings,
        q ≤ bestSim sim probeEmbs r.embeddings) ∧
    ((⟨fn, r.name, bestSim sim probeEmbs r.embeddings⟩ : MatchCand) ∈
        aboveThreshold threshold (matchCandidates sim probeKey probeEmbs entries) ↔
      threshold ≤ bestSim sim probeEmbs r.embeddings) := by
  have hfold := bestSim_eq_foldl_max sim probeEmbs r.embeddings
  constructor
  · constructor
    · rcases foldl_max_mem (pairSims sim probeEmbs r.embeddings) (-1) with h | h
      · obtain ⟨q, hq⟩ :=
          List.exists_mem_of_ne_nil _ (pairSims_ne_nil hp he)
        have h1 : q ≤ -1 := h ▸ foldl_max_le_of_mem hq (-1)
        have h2 : q = -1 := le_antisymm h1 (hb q hq)
        rw [hfold, h, ← h2]
        exact hq
      · rw [hfold]; exact h
    · intro q hq
      rw [hfold]
      exact foldl_max_le_of_mem hq (-1)
  · constructor
    · intro hc
      have := (List.mem_filter.mp hc).2
      simpa using this
    · intro ht
      refine List.mem_filter.mpr ⟨?_, by simpa using ht⟩
      refine List.mem_filterMap.mpr ⟨(fn, r), hmem, ?_⟩
      simp [hself, he]

/-- Witness for C1 at a concrete registry, probe and similarity function. -/
theorem matcher_score_and_threshold_witness :
    (bestSim (fun _ _ => (1 : ℚ)) [[1]] [[1]] ∈
        pairSims (fun _ _ => (1 : ℚ)) [[1]] [[1]] ∧
      ∀ q ∈ pairSims (fun _ _ => (1 : ℚ)) [[1]] [[1]],
        q ≤ bestSim (fun _ _ => (1 : ℚ)) [[1]] [[1]]) ∧
    ((⟨("A_1.jpg").data, ("A").data,
        bestSim (fun _ _ => (1 : ℚ)) [[1]] [[1]]⟩ : MatchCand) ∈
        aboveThreshold 0 (matchCandidates (fun _ _ => (1 : ℚ))
          ("probe.jpg").data [[1]]
          [(("A_1.jpg").data,
            ⟨("A").data, ("/img/A_1.jpg").data, [[1]], 0⟩)]) ↔
      (0 : ℚ) ≤ bestSim (fun _ _ => (1 : ℚ)) [[1]] [[1]]) :=
  matcher_score_and_threshold (fun _ _ => (1 : ℚ))
    ("probe.jpg").data [[1]]
    [(("A_1.jpg").data, ⟨("A").data, ("/img/A_1.jpg").data, [[1]], 0⟩)]
    0 ("A_1.jpg").data ⟨("A").data, ("/img/A_1.jpg").data, [[1]], 0⟩
    (by decide) (by decide) (by decide) (by decide) (by decide)

/-! ### C2 : sortedness, stability, length of the match list -/

lemma filter_orderedInsert_eq_key {c : MatchCand} {s : ℚ}
    (hc : c.similarity = s) (l : List MatchCand) :
    (l.orderedInsert simGE c).filter (fun d => d.similarity == s) =
      c :: l.filter (fun d => d.similarity == s) := by
  induction l with
  | nil => simp [List.orderedInsert, hc]
  | cons b t ih =>
    rw [List.orderedInsert]
    by_cases hb : simGE c b
    · rw [if_pos hb]
      simp [List.filter_cons, hc]
    · have hbs : (b.similarity == s) = false := by
        have : c.similarity < b.similarity := lt_of_not_le hb
        rw [hc] at this
        exact beq_eq_false_iff_ne.mpr (ne_of_gt this)
      rw [if_neg hb, List.filter_cons, hbs, ih]
      simp [List.filter_cons, hbs]

lemma filter_orderedInsert_ne_key {c : MatchCand} {s : ℚ}
    (hc : c.similarity ≠ s) (l : List MatchCand) :
    (l.orderedInsert simGE c).filter (fun d => d.similarity == s) =
      l.filter (fun d => d.similarity == s) := by
  have hcs : (c.similarity == s) = false := beq_eq_false_iff_ne.mpr hc
  induction l with
  | nil => simp [List.orderedInsert, hcs]
  | cons b t ih =>
    rw [List.orderedInsert]
    by_cases hb : simGE c b
    · rw [if_pos hb]
      simp [List.filter_cons, hcs, hc]
    · rw [if_neg hb, List.filter_cons, List.filter_cons, ih]

/-- Stability of the sort: for every score, the rows carrying that score
appear in the sorted list exactly in their pre-sort (registry insertion)
order. -/
lemma sortDesc_filter_score (l : List MatchCand) (s : ℚ) :
    (sortDesc l).filter (fun d => d.similarity == s) =
      l.filter (fun d => d.similarity == s) := by
  induction l with
  | nil => rfl
  | cons x t ih =>
    have hs : sortDesc (x :: t) = (sortDesc t).orderedInsert simGE x := rfl
    rw [hs]
    by_cases hx : x.similarity = s
    · rw [filter_orderedInsert_eq_key hx, ih, List.filter_cons]
      simp [hx]
    · rw [filter_orderedInsert_ne_key hx, ih, List.filter_cons]
      simp [hx]

/-- C2: the match list is the post-sort truncation of the thresholded rows;
it is sorted by descending similarity; its length is
`min topk (number of candidate rows whose score meets the threshold)`; the
sort permutes the thresholded rows and, for each score value, preserves
their registry insertion order (stable sort). -/
theorem matchResults_sorted_stable_truncated
    (sim : Emb → Emb → ℚ) (probeKey : FName) (probeEmbs : List Emb)
    (entries : Registry) (threshold : ℚ) (topk : ℕ) :
    matchResults sim probeKey probeEmbs entries threshold topk =
      (sortDesc (aboveThreshold threshold
        (matchCandidates sim probeKey probeEmbs entries))).take topk ∧
    List.Pairwise simGE
      (matchResults sim probeKey probeEmbs entries threshold topk) ∧
    (matchResults sim probeKey probeEmbs entries threshold topk).length =
      min topk ((matchCandidates sim probeKey probeEmbs entries).countP
        (fun c => decide (threshold ≤ c.similarity))) ∧
    List.Perm
      (sortDesc (aboveThreshold threshold
        (matchCandidates sim probeKey probeEmbs entries)))
      (aboveThreshold threshold
        (matchCandidates sim probeKey probeEmbs entries)) ∧
    (∀ s : ℚ,
      (sortDesc (aboveThreshold threshold
        (matchCandidates sim probeKey probeEmbs entries))).filter
          (fun d => d.similarity == s) =
      (aboveThreshold threshold
        (matchCandidates sim probeKey probeEmbs entries)).filter
          (fun d => d.similarity == s)) := by
  refine ⟨rfl, ?_, ?_, ?_, ?_⟩
  · exact (List.sorted_insertionSort simGE _).sublist (List.take_sublist _ _)
  · rw [matchResults, List.length_take, sortDesc, List.length_insertionSort,
      aboveThreshold, ← List.countP_eq_length_filter]
  · exact List.perm_insertionSort simGE _
  · intro s
    exact sortDesc_filter_score _ s

/-! ### C9 : threshold monotonicity -/

lemma aboveThreshold_length_mono {t1 t2 : ℚ} (h : t1 ≤ t2)
    (l : List MatchCand) :
    (aboveThreshold t2 l).length ≤ (aboveThreshold t1 l).length := by
  unfold aboveThreshold
  rw [← List.countP_eq_length_filter, ← List.countP_eq_length_filter]
  refine List.countP_mono_left (fun c _ hc => ?_)
  exact decide_eq_true (le_trans h (of_decide_eq_true hc))

/-- C9: for the same probe, registry, similarity function, and `topk`,
raising the threshold never increases the number of returned matches. -/
theorem matchResults_threshold_mono
    (sim : Emb → Emb → ℚ) (probeKey : FName) (probeEmbs : List Emb)
    (entries : Registry) (topk : ℕ) {t1 t2 : ℚ} (h : t1 ≤ t2) :
    (matchResults sim probeKey probeEmbs entries t2 topk).length ≤
      (matchResults sim probeKey probeEmbs entries t1 topk).length := by
  unfold matchResults
  rw [List.length_take, List.length_take, sortDesc, sortDesc,
    List.length_insertionSort, List.length_insertionSort]
  exact min_le_min (le_refl topk) (aboveThreshold_length_mono h _)

/-- Witness for C9 at a concrete registry and thresholds. -/
theorem matchResults_threshold_mono_witness :
    (matchResults (fun _ _ => (1 : ℚ)) ("probe.jpg").data [[1]]
      [(("A_1.jpg").data, ⟨("A").data, ("/img/A_1.jpg").data, [[1]], 0⟩)]
      1 3).length ≤
    (matchResults (fun _ _ => (1 : ℚ)) ("probe.jpg").data [[1]]
      [(("A_1.jpg").data, ⟨("A").data, ("/img/A_1.jpg").data, [[1]], 0⟩)]
      0 3).length :=
  matchResults_threshold_mono (fun _ _ => (1 : ℚ)) ("probe.jpg").data [[1]]
    [(("A_1.jpg").data, ⟨("A").data, ("/img/A_1.jpg").data, [[1]], 0⟩)]
    3 (by norm_num)

/-! ### Registry and path lemmas -/

lemma lookupImg_nil (k : FName) : lookupImg [] k = none := rfl

lemma lookupImg_cons (k' : FName) (r' : Record) (t : Registry) (k : FName) :
    lookupImg ((k', r') :: t) k =
      if k' == k then some r' else lookupImg t k := by
  by_cases h : k' == k <;> simp [lookupImg, List.find?_cons, h]

lemma lookupImg_setRecord_self (db : Registry) (k : FName) (r : Record) :
    lookupImg (setRecord db k r) k = some r := by
  induction db with
  | nil => simp [setRecord, lookupImg_cons]
  | cons kr t ih =>
    obtain ⟨k', r'⟩ := kr
    rw [setRecord]
    by_cases h : k' == k
    · rw [if_pos h, lookupImg_cons]
      simp
    · rw [if_neg h, lookupImg_cons, if_neg h]
      exact ih

lemma lookupImg_setRecord_ne {k2 k : FName} (db : Registry) (r : Record)
    (h : k2 ≠ k) : lookupImg (setRecord db k r) k2 = lookupImg db k2 := by
  have hkk2 : (k == k2) = false := beq_eq_false_iff_ne.mpr (fun e => h e.symm)
  induction db with
  | nil => simp [setRecord, lookupImg_cons, hkk2, lookupImg_nil]
  | cons kr t ih =>
    obtain ⟨k', r'⟩ := kr
    rw [setRecord]
    by_cases hb : k' == k
    · have hk' : k' = k := eq_of_beq hb
      rw [if_pos hb, lookupImg_cons, hkk2, lookupImg_cons, hk', hkk2]
      simp
    · rw [if_neg hb, lookupImg_cons, lookupImg_cons, ih]

lemma lookupImg_setRecord_isSome {db : Registry} {k2 : FName} (k : FName)
    (r : Record) (h : (lookupImg db k2).isSome) :
    (lookupImg (setRecord db k r) k2).isSome := by
  by_cases he : k2 = k
  · subst he
    rw [lookupImg_setRecord_self]
    rfl
  · rw [lookupImg_setRecord_ne db r he]
    exact h

lemma mem_setRecord {db : Registry} {k : FName} {r : Record} :
    ∀ kr ∈ setRecord db k r, kr ∈ db ∨ kr = (k, r) := by
  induction db with
  | nil =>
    intro kr hm
    exact Or.inr (List.mem_singleton.mp hm)
  | cons hd t ih =>
    obtain ⟨k', r'⟩ := hd
    intro kr hm
    rw [setRecord] at hm
    by_cases hb : k' == k
    · rw [if_pos hb] at hm
      rcases List.mem_cons.mp hm with rfl | hm'
      · exact Or.inr rfl
      · exact Or.inl (List.mem_cons_of_mem _ hm')
    · rw [if_neg hb] at hm
      rcases List.mem_cons.mp hm with rfl | hm'
      · exact Or.inl (List.mem_cons_self _ _)
      · rcases ih kr hm' with h1 | h2
        · exact Or.inl (List.mem_cons_of_mem _ h1)
        · exact Or.inr h2

lemma ne_of_contains_false {f : List Char} {x : Char}
    (h : f.contains x = false) : ∀ c ∈ f, c ≠ x := by
  intro c hc he
  rw [he] at hc
  have ht : f.contains x = true := List.elem_iff.mpr hc
  rw [h] at ht
  exact Bool.false_ne_true ht

lemma takeWhile_ne_char_append (x : Char) (s rest : List Char)
    (h : ∀ c ∈ s, c ≠ x) :
    (s ++ x :: rest).takeWhile (fun c => c != x) = s := by
  rw [List.takeWhile_append_of_pos (fun c hc => bne_iff_ne.mpr (h c hc))]
  simp

lemma basename_joinPath {dir f : FName} (h : f.contains '/' = false) :
    basename (joinPath dir f) = f := by
  unfold basename joinPath
  rw [List.reverse_append, List.reverse_cons, List.append_assoc,
    List.singleton_append,
    takeWhile_ne_char_append '/' f.reverse dir.reverse
      (fun c hc => ne_of_contains_false h c (List.mem_reverse.mp hc))]
  exact List.reverse_reverse f

/-! ### Sync invariants -/

/-- The add loop's skip condition: an entry under key `f` already records
exactly the path `joinPath fs.dir f`. -/
def Matching (fs : FS) (db : Registry) (f : FName) : Prop :=
  ∃ e, lookupImg db f = some e ∧ e.path = joinPath fs.dir f

/-- Every registry entry's recorded path exists on disk. -/
def AllLive (fs : FS) (db : Registry) : Prop :=
  ∀ kr ∈ db, pathLive fs kr.2.path = true

lemma skip_eq_true_iff (fs : FS) (db : Registry) (f : FName) :
    (match lookupImg db f with
      | some e => e.path == joinPath fs.dir f
      | none => false) = true ↔ Matching fs db f := by
  cases h : lookupImg db f with
  | none => simp [Matching, h]
  | some e => simp [Matching, h]

lemma psi_not_live {extract : FName → List Emb} {fs : FS} {now : ℕ}
    {fp : FName} {s : ServerState} (h : pathLive fs fp = false) :
    processSingleImage extract fs now fp s = (s, .fileNotFound) := by
  simp [processSingleImage, h]

lemma psi_noFace {extract : FName → List Emb} {fs : FS} {now : ℕ}
    {fp : FName} {s : ServerState} (h : pathLive fs fp = true)
    (he : extract fp = []) :
    processSingleImage extract fs now fp s = (s, .noFace) := by
  simp [processSingleImage, h, he]

lemma psi_added {extract : FName → List Emb} {fs : FS} {now : ℕ}
    {fp : FName} {s : ServerState} (h : pathLive fs fp = true)
    (he : extract fp ≠ []) :
    processSingleImage extract fs now fp s =
      ({ db := setRecord s.db (basename fp)
            { name := nameOf (basename fp), path := fp,
              embeddings := extract fp, enrolledAt := now },
          saved := setRecord s.db (basename fp)
            { name := nameOf (basename fp), path := fp,
              embeddings := extract fp, enrolledAt := now } },
        .added (basename fp) (extract fp).length) := by
  simp [processSingleImage, h, List.isEmpty_eq_false_iff_exists_mem.mpr
    (by rcases List.exists_mem_of_ne_nil _ he with ⟨x, hx⟩; exact ⟨x, hx⟩)]

lemma psi_allLive {extract : FName → List Emb} {fs : FS} {now : ℕ}
    {fp : FName} {s : ServerState} (h : AllLive fs s.db) :
    AllLive fs (processSingleImage extract fs now fp s).1.db := by
  cases hl : pathLive fs fp with
  | false => rw [psi_not_live hl]; exact h
  | true =>
    by_cases he : extract fp = []
    · rw [psi_noFace hl he]; exact h
    · rw [psi_added hl he]
      intro kr hm
      rcases mem_setRecord kr hm with hin | heq
      · exact h kr hin
      · rw [heq]
        exact hl

lemma syncAddLoop_cons_skip {extract : FName → List Emb} {fs : FS} {now : ℕ}
    {f : FName} {rest : List FName} {s : ServerState} {a : ℕ} {c : List FName}
    (h : Matching fs s.db f) :
    syncAddLoop extract fs now (f :: rest) s a c =
      syncAddLoop extract fs now rest s a c := by
  have hb := (skip_eq_true_iff fs s.db f).mpr h
  simp [syncAddLoop, hb]

lemma syncAddLoop_cons_proc {extract : FName → List Emb} {fs : FS} {now : ℕ}
    {f : FName} {rest : List FName} {s : ServerState} {a : ℕ} {c : List FName}
    (h : ¬ Matching fs s.db f) :
    syncAddLoop extract fs now (f :: rest) s a c =
      syncAddLoop extract fs now rest
        (processSingleImage extract fs now (joinPath fs.dir f) s).1
        (match (processSingleImage extract fs now (joinPath fs.dir f) s).2 with
          | .added _ _ => a + 1
          | _ => a)
        (if pathLive fs (joinPath fs.dir f) then c ++ [joinPath fs.dir f]
         else c) := by
  have hb : (match lookupImg s.db f with
      | some e => e.path == joinPath fs.dir f
      | none => false) = false := by
    cases hv : (match lookupImg s.db f with
      | some e => e.path == joinPath fs.dir f
      | none => false) with
    | false => rfl
    | true => exact absurd ((skip_eq_true_iff fs s.db f).mp hv) h
  simp [syncAddLoop, hb]

lemma syncAddLoop_allLive (extract : FName → List Emb) (fs : FS) (now : ℕ) :
    ∀ (files : List FName) (s : ServerState) (a : ℕ) (c : List FName),
      AllLive fs s.db →
      AllLive fs (syncAddLoop extract fs now files s a c).1.db
  | [], _, _, _, h => h
  | f :: rest, s, a, c, h => by
    by_cases hm : Matching fs s.db f
    · rw [syncAddLoop_cons_skip hm]
      exact syncAddLoop_allLive extract fs now rest s a c h
    · rw [syncAddLoop_cons_proc hm]
      exact syncAddLoop_allLive extract fs now rest _ _ _ (psi_allLive h)

lemma matching_psi {extract : FName → List Emb} {fs : FS} {now : ℕ}
    {g f : FName} {s : ServerState} (hg : g.contains '/' = false)
    (hm : Matching fs s.db f) :
    Matching fs (processSingleImage extract fs now (joinPath fs.dir g) s).1.db
      f := by
  cases hl : pathLive fs (joinPath fs.dir g) with
  | false => rw [psi_not_live hl]; exact hm
  | true =>
    by_cases he : extract (joinPath fs.dir g) = []
    · rw [psi_noFace hl he]; exact hm
    · rw [psi_added hl he]
      dsimp only
      rw [basename_joinPath hg]
      by_cases hf : f = g
      · subst hf
        exact ⟨_, lookupImg_setRecord_self _ _ _, rfl⟩
      · obtain ⟨e, h1, h2⟩ := hm
        exact ⟨e, by rw [lookupImg_setRecord_ne _ _ hf]; exact h1, h2⟩

lemma syncAddLoop_matching (extract : FName → List Emb) (fs : FS) (now : ℕ) :
    ∀ (files : List FName) (s : ServerState) (a : ℕ) (c : List FName)
      (f : FName),
      (∀ g ∈ files, g.contains '/' = false) →
      Matching fs s.db f →
      Matching fs (syncAddLoop extract fs now files s a c).1.db f
  | [], _, _, _, _, _, hm => hm
  | g :: rest, s, a, c, f, hsl, hm => by
    by_cases hg : Matching fs s.db g
    · rw [syncAddLoop_cons_skip hg]
      exact syncAddLoop_matching extract fs now rest s a c f
        (fun g' hg' => hsl g' (List.mem_cons_of_mem _ hg')) hm
    · rw [syncAddLoop_cons_proc hg]
      exact syncAddLoop_matching extract fs now rest _ _ _ f
        (fun g' hg' => hsl g' (List.mem_cons_of_mem _ hg'))
        (matching_psi (hsl g (List.mem_cons_self _ _)) hm)

lemma syncAddLoop_establish (extract : FName → List Emb) (fs : FS) (now : ℕ) :
    ∀ (files : List FName) (s : ServerState) (a : ℕ) (c : List FName),
      (∀ g ∈ files, g.contains '/' = false) →
      (∀ g ∈ files, pathLive fs (joinPath fs.dir g) = true) →
      ∀ f ∈ files, extract (joinPath fs.dir f) ≠ [] →
        Matching fs (syncAddLoop extract fs now files s a c).1.db f
  | g :: rest, s, a, c, hsl, hco, f, hf, hex => by
    have hslr : ∀ g' ∈ rest, g'.contains '/' = false :=
      fun g' hg' => hsl g' (List.mem_cons_of_mem _ hg')
    have hcor : ∀ g' ∈ rest, pathLive fs (joinPath fs.dir g') = true :=
      fun g' hg' => hco g' (List.mem_cons_of_mem _ hg')
    rcases List.mem_cons.mp hf with rfl | hfr
    · by_cases hm : Matching fs s.db f
      · rw [syncAddLoop_cons_skip hm]
        exact syncAddLoop_matching extract fs now rest s a c f hslr hm
      · rw [syncAddLoop_cons_proc hm]
        refine syncAddLoop_matching extract fs now rest _ _ _ f hslr ?_
        rw [psi_added (hco f (List.mem_cons_self _ _)) hex]
        dsimp only
        rw [basename_joinPath (hsl f (List.mem_cons_self _ _))]
        exact ⟨_, lookupImg_setRecord_self _ _ _, rfl⟩
    · by_cases hm : Matching fs s.db g
      · rw [syncAddLoop_cons_skip hm]
        exact syncAddLoop_establish extract fs now rest s a c hslr hcor f hfr
          hex
      · rw [syncAddLoop_cons_proc hm]
        exact syncAddLoop_establish extract fs now rest _ _ _ hslr hcor f hfr
          hex

lemma syncAddLoop_stable (extract : FName → List Emb) (fs : FS) (now : ℕ) :
    ∀ (files : List FName) (s : ServerState) (a : ℕ) (c : List FName),
      (∀ g ∈ files, g.contains '/' = false) →
      (∀ g ∈ files, pathLive fs (joinPath fs.dir g) = true) →
      (∀ f ∈ files, extract (joinPath fs.dir f) ≠ [] → Matching fs s.db f) →
      (syncAddLoop extract fs now files s a c).1 = s ∧
      (syncAddLoop extract fs now files s a c).2.1 = a ∧
      (∀ p ∈ (syncAddLoop extract fs now files s a c).2.2,
        p ∈ c ∨ extract p = [])
  | [], s, a, c, _, _, _ => ⟨rfl, rfl, fun _ hp => Or.inl hp⟩
  | g :: rest, s, a, c, hsl, hco, hstab => by
    have hslr : ∀ g' ∈ rest, g'.contains '/' = false :=
      fun g' hg' => hsl g' (List.mem_cons_of_mem _ hg')
    have hcor : ∀ g' ∈ rest, pathLive fs (joinPath fs.dir g') = true :=
      fun g' hg' => hco g' (List.mem_cons_of_mem _ hg')
    have hstabr : ∀ f ∈ rest, extract (joinPath fs.dir f) ≠ [] →
        Matching fs s.db f :=
      fun f hf => hstab f (List.mem_cons_of_mem _ hf)
    by_cases hm : Matching fs s.db g
    · rw [syncAddLoop_cons_skip hm]
      exact syncAddLoop_stable extract fs now rest s a c hslr hcor hstabr
    · have hex : extract (joinPath fs.dir g) = [] := by
        by_contra hne
        exact hm (hstab g (List.mem_cons_self _ _) hne)
      rw [syncAddLoop_cons_proc hm,
        psi_noFace (hco g (List.mem_cons_self _ _)) hex]
      dsimp only
      rw [if_pos (hco g (List.mem_cons_self _ _))]
      obtain ⟨h1, h2, h3⟩ := syncAddLoop_stable extract fs now rest s a
        (c ++ [joinPath fs.dir g]) hslr hcor hstabr
      refine ⟨h1, h2, fun p hp => ?_⟩
      rcases h3 p hp with hc | he
      · rcases List.mem_append.mp hc with hcl | hcr
        · exact Or.inl hcl
        · rw [List.mem_singleton.mp hcr]
          exact Or.inr hex
      · exact Or.inr he

lemma filter_allLive (fs : FS) (db : Registry) :
    AllLive fs (db.filter (fun kr => pathLive fs kr.2.path)) :=
  fun _ hm => (List.mem_filter.mp hm).2

lemma syncCore_allLive (extract : FName → List Emb) (fs : FS) (now : ℕ)
    (s : ServerState) : AllLive fs (syncCore extract fs now s).1.db :=
  syncAddLoop_allLive extract fs now _ _ 0 [] (filter_allLive fs s.db)

lemma syncCore_establish (extract : FName → List Emb) (fs : FS) (now : ℕ)
    (s : ServerState)
    (hsl : ∀ f ∈ fs.dirListing, f.contains '/' = false)
    (hco : ∀ f ∈ fs.dirListing, isImage f = true →
      pathLive fs (joinPath fs.dir f) = true) :
    ∀ f ∈ fs.dirListing.filter isImage, extract (joinPath fs.dir f) ≠ [] →
      Matching fs (syncCore extract fs now s).1.db f :=
  syncAddLoop_establish extract fs now _ _ 0 []
    (fun g hg => hsl g (List.mem_filter.mp hg).1)
    (fun g hg => hco g (List.mem_filter.mp hg).1 (List.mem_filter.mp hg).2)

lemma syncCore_stable (extract : FName → List Emb) (fs : FS) (now : ℕ)
    (s : ServerState)
    (hsl : ∀ f ∈ fs.dirListing, f.contains '/' = false)
    (hco : ∀ f ∈ fs.dirListing, isImage f = true →
      pathLive fs (joinPath fs.dir f) = true)
    (hAll : AllLive fs s.db)
    (hstab : ∀ f ∈ fs.dirListing.filter isImage,
      extract (joinPath fs.dir f) ≠ [] → Matching fs s.db f) :
    (syncCore extract fs now s).1 = s ∧
    (syncCore extract fs now s).2.1 = 0 ∧
    ∀ p ∈ (syncCore extract fs now s).2.2, extract p = [] := by
  have hfe : s.db.filter (fun kr => pathLive fs kr.2.path) = s.db :=
    List.filter_eq_self.mpr hAll
  unfold syncCore
  rw [hfe]
  obtain ⟨h1, h2, h3⟩ := syncAddLoop_stable extract fs now
    (fs.dirListing.filter isImage) { db := s.db, saved := s.saved } 0 []
    (fun g hg => hsl g (List.mem_filter.mp hg).1)
    (fun g hg => hco g (List.mem_filter.mp hg).1 (List.mem_filter.mp hg).2)
    hstab
  refine ⟨h1, h2, fun p hp => ?_⟩
  rcases h3 p hp with hc | he
  · exact absurd hc (List.not_mem_nil p)
  · exact he

/-! ### C3 : sync removal and the shape of the sync response -/

/-- C3 (amended): when the directory exists, a sync pass removes every
record whose source image no longer exists — afterwards every registry
entry's path is on disk — and the JSON response carries `added` and
`total` (the post-sync registry size) but no `removed` count: the handler
never computes one. -/
theorem sync_removes_stale_no_removed_field
    (extract : FName → List Emb) (fs : FS) (now : ℕ) (s : ServerState)
    (hdir : fs.dirOk = true) :
    (∀ kr ∈ (syncDB extract fs now s).1.db, pathLive fs kr.2.path = true) ∧
    ((syncDB extract fs now s).2.1).lookup "removed" = none ∧
    ((syncDB extract fs now s).2.1).lookup "total" =
      some (.n (syncDB extract fs now s).1.db.length) ∧
    ((syncDB extract fs now s).2.1).lookup "added" =
      some (.n (syncCore extract fs now s).2.1) := by
  have hne : ¬ fs.dirOk = false := by simp [hdir]
  refine ⟨?_, ?_, ?_, ?_⟩ <;> simp only [syncDB, if_neg hne]
  · exact fun kr hm => syncCore_allLive extract fs now s kr hm
  · rfl
  · rfl
  · rfl

/-- Extractor that finds exactly one face in every image. -/
def oneFaceExtract : FName → List Emb := fun _ => [[1]]

/-- Extractor that finds no face in any image. -/
def noFaceExtract : FName → List Emb := fun _ => []

/-- Images directory holding `A_1.jpg` and `A_2.jpg`. -/
def fsTwoFiles : FS :=
  ⟨("/img").data, [("A_1.jpg").data, ("A_2.jpg").data],
   [("/img/A_1.jpg").data, ("/img/A_2.jpg").data], true⟩

/-- The same directory after `A_2.jpg` has been deleted from disk. -/
def fsOneFile : FS :=
  ⟨("/img").data, [("A_1.jpg").data], [("/img/A_1.jpg").data], true⟩

/-- C3 counterexample: sync over `{A_1.jpg, A_2.jpg}`, delete `A_2.jpg`,
re-sync. The second pass does remove `A_2.jpg` (only `A_1.jpg` remains,
`total:1`), but its response contains no `removed` field at all — the
claimed `removed:1` is absent. -/
theorem sync_response_counterexample :
    ((syncDB oneFaceExtract fsOneFile 1
        (syncDB oneFaceExtract fsTwoFiles 0 ⟨[], []⟩).1).2.1).lookup
      "removed" = none ∧
    ((syncDB oneFaceExtract fsOneFile 1
        (syncDB oneFaceExtract fsTwoFiles 0 ⟨[], []⟩).1).2.1).lookup
      "total" = some (.n 1) ∧
    ((syncDB oneFaceExtract fsOneFile 1
        (syncDB oneFaceExtract fsTwoFiles 0 ⟨[], []⟩).1).1.db).map
      Prod.fst = [("A_1.jpg").data] := by
  refine ⟨by decide, by decide, by decide⟩

/-- Witness for C3 (amended) at the deletion scenario. -/
theorem sync_removes_stale_no_removed_field_witness :
    (∀ kr ∈ (syncDB oneFaceExtract fsOneFile 1
        (syncDB oneFaceExtract fsTwoFiles 0 ⟨[], []⟩).1).1.db,
      pathLive fsOneFile kr.2.path = true) ∧
    ((syncDB oneFaceExtract fsOneFile 1
        (syncDB oneFaceExtract fsTwoFiles 0 ⟨[], []⟩).1).2.1).lookup
      "removed" = none ∧
    ((syncDB oneFaceExtract fsOneFile 1
        (syncDB oneFaceExtract fsTwoFiles 0 ⟨[], []⟩).1).2.1).lookup
      "total" = some (.n (syncDB oneFaceExtract fsOneFile 1
        (syncDB oneFaceExtract fsTwoFiles 0 ⟨[], []⟩).1).1.db.length) ∧
    ((syncDB oneFaceExtract fsOneFile 1
        (syncDB oneFaceExtract fsTwoFiles 0 ⟨[], []⟩).1).2.1).lookup
      "added" = some (.n (syncCore oneFaceExtract fsOneFile 1
        (syncDB oneFaceExtract fsTwoFiles 0 ⟨[], []⟩).1).2.1) :=
  sync_removes_stale_no_removed_field oneFaceExtract fsOneFile 1
    (syncDB oneFaceExtract fsTwoFiles 0 ⟨[], []⟩).1 (by decide)

/-! ### C4 : sync idempotence -/

/-- C4 (amended): with the directory unchanged between the two passes (its
listed files exist at their joined paths and carry no path separator), the
second sync pass reports `added:0`, removes nothing (every surviving
record's path is still on disk, so the removal pass deletes no entry),
returns the server to exactly the same state (registry and durable file
alike), and invokes the extractor only on files whose extraction yields
zero embeddings — no enrolled file is re-embedded. -/
theorem sync_idempotent
    (extract : FName → List Emb) (fs : FS) (now1 now2 : ℕ) (s0 : ServerState)
    (hdir : fs.dirOk = true)
    (hsl : ∀ f ∈ fs.dirListing, f.contains '/' = false)
    (hco : ∀ f ∈ fs.dirListing, isImage f = true →
      pathLive fs (joinPath fs.dir f) = true) :
    (syncDB extract fs now2 (syncDB extract fs now1 s0).1).1 =
      (syncDB extract fs now1 s0).1 ∧
    ((syncDB extract fs now2 (syncDB extract fs now1 s0).1).2.1).lookup
      "added" = some (.n 0) ∧
    ((syncDB extract fs now1 s0).1.db.filter
      (fun kr => pathLive fs kr.2.path)) = (syncDB extract fs now1 s0).1.db ∧
    (∀ p ∈ (syncDB extract fs now2 (syncDB extract fs now1 s0).1).2.2,
      extract p = []) := by
  have hne : ¬ fs.dirOk = false := by simp [hdir]
  have hAll : AllLive fs (syncCore extract fs now1 s0).1.db :=
    syncCore_allLive extract fs now1 s0
  have hstab := syncCore_establish extract fs now1 s0 hsl hco
  have hs1 : (syncDB extract fs now1 s0).1 =
      { db := (syncCore extract fs now1 s0).1.db,
        saved := (syncCore extract fs now1 s0).1.db } := by
    simp only [syncDB, if_neg hne]
  have hstable := syncCore_stable extract fs now2
    { db := (syncCore extract fs now1 s0).1.db,
      saved := (syncCore extract fs now1 s0).1.db } hsl hco hAll hstab
  refine ⟨?_, ?_, ?_, ?_⟩
  · simp only [syncDB, if_neg hne]
    rw [show (syncCore extract fs now2
        { db := (syncCore extract fs now1 s0).1.db,
          saved := (syncCore extract fs now1 s0).1.db }).1 =
        { db := (syncCore extract fs now1 s0).1.db,
          saved := (syncCore extract fs now1 s0).1.db } from hstable.1]
  · simp only [syncDB, if_neg hne]
    rw [show (syncCore extract fs now2
        { db := (syncCore extract fs now1 s0).1.db,
          saved := (syncCore extract fs now1 s0).1.db }).2.1 = 0 from
      hstable.2.1]
    rfl
  · rw [hs1]
    exact List.filter_eq_self.mpr hAll
  · intro p hp
    refine hstable.2.2 p ?_
    revert hp
    simp only [syncDB, if_neg hne]
    exact id

/-- C4 counterexample: a directory with one image in which the extractor
finds no face. The file can never be enrolled, so the second back-to-back
sync pass re-invokes the extractor on it — the claimed "no file
re-embedded" fails. -/
def fsNoFaceDir : FS :=
  ⟨("/img").data, [("X.jpg").data], [("/img/X.jpg").data], true⟩

/-- C4 counterexample theorem: on the second of two identical sync passes
the extractor-call list is non-empty (it is exactly the face-less file). -/
theorem sync_reembeds_counterexample :
    (syncDB noFaceExtract fsNoFaceDir 1
      (syncDB noFaceExtract fsNoFaceDir 0 ⟨[], []⟩).1).2.2 =
      [("/img/X.jpg").data] ∧
    (syncDB noFaceExtract fsNoFaceDir 1
      (syncDB noFaceExtract fsNoFaceDir 0 ⟨[], []⟩).1).2.2 ≠ [] := by
  refine ⟨by decide, by decide⟩

/-- Witness for C4 (amended) at the two-file scenario. -/
theorem sync_idempotent_witness :
    (syncDB oneFaceExtract fsTwoFiles 1
      (syncDB oneFaceExtract fsTwoFiles 0 ⟨[], []⟩).1).1 =
      (syncDB oneFaceExtract fsTwoFiles 0 ⟨[], []⟩).1 ∧
    ((syncDB oneFaceExtract fsTwoFiles 1
      (syncDB oneFaceExtract fsTwoFiles 0 ⟨[], []⟩).1).2.1).lookup
      "added" = some (.n 0) ∧
    ((syncDB oneFaceExtract fsTwoFiles 0 ⟨[], []⟩).1.db.filter
      (fun kr => pathLive fsTwoFiles kr.2.path)) =
      (syncDB oneFaceExtract fsTwoFiles 0 ⟨[], []⟩).1.db ∧
    (∀ p ∈ (syncDB oneFaceExtract fsTwoFiles 1
      (syncDB oneFaceExtract fsTwoFiles 0 ⟨[], []⟩).1).2.2,
      oneFaceExtract p = []) :=
  sync_idempotent oneFaceExtract fsTwoFiles 0 1 ⟨[], []⟩
    (by decide) (by decide) (by decide)

/-! ### C6 : enrollment with zero detected embeddings -/

/-- C6: when the probe file exists but the extractor finds no face, the
enroll operation leaves the server state (registry and durable file)
untouched and responds with HTTP 400, `success:false` and the distinct
`reason:"no-face"` — never a success with zero embeddings. -/
theorem enroll_noFace
    (extract : FName → List Emb) (fs : FS) (now : ℕ) (p : FName)
    (s : ServerState) (hlive : pathLive fs p = true)
    (hempty : extract p = []) :
    enrollHandler extract fs now (some p) s =
      (s, ⟨400, [("success", .b false),
        ("message", .s "No face found or image skipped"),
        ("reason", .s "no-face")]⟩) := by
  simp only [enrollHandler, psi_noFace hlive hempty]

/-- Witness for C6 at a concrete file and extractor. -/
theorem enroll_noFace_witness :
    enrollHandler noFaceExtract fsNoFaceDir 0
      (some ("/img/X.jpg").data) ⟨[], []⟩ =
      (⟨[], []⟩, ⟨400, [("success", .b false),
        ("message", .s "No face found or image skipped"),
        ("reason", .s "no-face")]⟩) :=
  enroll_noFace noFaceExtract fsNoFaceDir 0 ("/img/X.jpg").data ⟨[], []⟩
    (by decide) (by decide)

/-! ### `/match` state lemmas (C7, C10) -/

lemma psi_lookup_ne {extract : FName → List Emb} {fs : FS} {now : ℕ}
    {g k : FName} {s : ServerState} (hg : g.contains '/' = false)
    (hk : k ≠ g) :
    lookupImg (processSingleImage extract fs now (joinPath fs.dir g) s).1.db
      k = lookupImg s.db k := by
  cases hl : pathLive fs (joinPath fs.dir g) with
  | false => rw [psi_not_live hl]
  | true =>
    by_cases he : extract (joinPath fs.dir g) = []
    · rw [psi_noFace hl he]
    · rw [psi_added hl he]
      dsimp only
      rw [basename_joinPath hg, lookupImg_setRecord_ne _ _ hk]

lemma psi_lookup_isSome {extract : FName → List Emb} {fs : FS} {now : ℕ}
    {fp k : FName} {s : ServerState} (h : (lookupImg s.db k).isSome) :
    (lookupImg (processSingleImage extract fs now fp s).1.db k).isSome := by
  cases hl : pathLive fs fp with
  | false => rw [psi_not_live hl]; exact h
  | true =>
    by_cases he : extract fp = []
    · rw [psi_noFace hl he]; exact h
    · rw [psi_added hl he]
      exact lookupImg_setRecord_isSome _ _ h

lemma matchSyncLoop_cons (extract : FName → List Emb) (fs : FS) (now : ℕ)
    (f : FName) (rest : List FName) (s : ServerState) :
    matchSyncLoop extract fs now (f :: rest) s =
      if (lookupImg s.db f).isNone then
        matchSyncLoop extract fs now rest
          (processSingleImage extract fs now (joinPath fs.dir f) s).1
      else matchSyncLoop extract fs now rest s := rfl

lemma matchSyncLoop_lookup_ne (extract : FName → List Emb) (fs : FS)
    (now : ℕ) :
    ∀ (files : List FName) (s : ServerState) (k : FName),
      (∀ g ∈ files, g.contains '/' = false) → k ∉ files →
      lookupImg (matchSyncLoop extract fs now files s).db k =
        lookupImg s.db k
  | [], _, _, _, _ => rfl
  | g :: rest, s, k, hsl, hk => by
    have hkg : k ≠ g := fun he => hk (he ▸ List.mem_cons_self g rest)
    have hkr : k ∉ rest := fun hr => hk (List.mem_cons_of_mem _ hr)
    have hslr : ∀ g' ∈ rest, g'.contains '/' = false :=
      fun g' hg' => hsl g' (List.mem_cons_of_mem _ hg')
    rw [matchSyncLoop_cons]
    by_cases hn : (lookupImg s.db g).isNone
    · rw [if_pos hn, matchSyncLoop_lookup_ne extract fs now rest _ k hslr hkr,
        psi_lookup_ne (hsl g (List.mem_cons_self _ _)) hkg]
    · rw [if_neg hn, matchSyncLoop_lookup_ne extract fs now rest _ k hslr hkr]

lemma matchSyncLoop_isSome (extract : FName → List Emb) (fs : FS) (now : ℕ) :
    ∀ (files : List FName) (s : ServerState) (k : FName),
      (lookupImg s.db k).isSome →
      (lookupImg (matchSyncLoop extract fs now files s).db k).isSome
  | [], _, _, h => h
  | g :: rest, s, k, h => by
    rw [matchSyncLoop_cons]
    by_cases hn : (lookupImg s.db g).isNone
    · rw [if_pos hn]
      exact matchSyncLoop_isSome extract fs now rest _ k (psi_lookup_isSome h)
    · rw [if_neg hn]
      exact matchSyncLoop_isSome extract fs now rest _ k h

lemma matchSyncLoop_establish (extract : FName → List Emb) (fs : FS)
    (now : ℕ) :
    ∀ (files : List FName) (s : ServerState),
      (∀ g ∈ files, g.contains '/' = false) →
      ∀ f ∈ files, pathLive fs (joinPath fs.dir f) = true →
        extract (joinPath fs.dir f) ≠ [] →
        (lookupImg (matchSyncLoop extract fs now files s).db f).isSome
  | g :: rest, s, hsl, f, hf, hlv, hex => by
    have hslr : ∀ g' ∈ rest, g'.contains '/' = false :=
      fun g' hg' => hsl g' (List.mem_cons_of_mem _ hg')
    rw [matchSyncLoop_cons]
    rcases List.mem_cons.mp hf with rfl | hfr
    · by_cases hn : (lookupImg s.db f).isNone
      · rw [if_pos hn]
        apply matchSyncLoop_isSome
        rw [psi_added hlv hex]
        dsimp only
        rw [basename_joinPath (hsl f (List.mem_cons_self _ _)),
          lookupImg_setRecord_self]
        rfl
      · rw [if_neg hn]
        apply matchSyncLoop_isSome
        have hne : lookupImg s.db f ≠ none := fun he => hn (by rw [he]; rfl)
        exact Option.isSome_iff_ne_none.mpr hne
    · by_cases hn : (lookupImg s.db g).isNone
      · rw [if_pos hn]
        exact matchSyncLoop_establish extract fs now rest _ hslr f hfr hlv hex
      · rw [if_neg hn]
        exact matchSyncLoop_establish extract fs now rest _ hslr f hfr hlv hex

lemma needEmbed_of_none {db : Registry} {k : FName}
    (hq : lookupImg db k = none) : needEmbed db k = true := by
  simp [needEmbed, hq]

lemma needEmbed_of_some {db : Registry} {k : FName} {e : Record}
    (hq : lookupImg db k = some e) : needEmbed db k = e.embeddings.isEmpty := by
  simp [needEmbed, hq]

lemma finishMatch_some {sim : Emb → Emb → ℚ} {k : FName} {s : ServerState}
    {threshold : ℚ} {topk : ℕ} {e : Record}
    (hq : lookupImg s.db k = some e) :
    finishMatch sim k s threshold topk =
      (s, .ok k (matchResults sim k e.embeddings s.db threshold topk)) := by
  simp [finishMatch, hq]

lemma finishMatch_none {sim : Emb → Emb → ℚ} {k : FName} {s : ServerState}
    {threshold : ℚ} {topk : ℕ} (hq : lookupImg s.db k = none) :
    finishMatch sim k s threshold topk = (s, .probeMissingAfterProcessing) := by
  simp [finishMatch, hq]

lemma matchProbeStage_embed {extract : FName → List Emb}
    {sim : Emb → Emb → ℚ} {fs : FS} {now : ℕ} {probe : FName}
    {threshold : ℚ} {topk : ℕ} {s1 : ServerState}
    (hlive : pathLive fs probe = true)
    (hne : needEmbed s1.db (basename probe) = true)
    (hex : extract probe ≠ []) :
    matchProbeStage extract sim fs now probe threshold topk s1 =
      finishMatch sim (basename probe)
        (processSingleImage extract fs now probe s1).1 threshold topk := by
  unfold matchProbeStage
  rw [if_neg (by simp [hlive]), if_pos hne, psi_added hlive hex]

lemma matchProbeStage_embed_noFace {extract : FName → List Emb}
    {sim : Emb → Emb → ℚ} {fs : FS} {now : ℕ} {probe : FName}
    {threshold : ℚ} {topk : ℕ} {s1 : ServerState}
    (hlive : pathLive fs probe = true)
    (hne : needEmbed s1.db (basename probe) = true)
    (hempty : extract probe = []) :
    matchProbeStage extract sim fs now probe threshold topk s1 =
      finishMatch sim (basename probe) s1 threshold topk := by
  unfold matchProbeStage
  rw [if_neg (by simp [hlive]), if_pos hne, psi_noFace hlive hempty]

lemma matchProbeStage_noEmbed {extract : FName → List Emb}
    {sim : Emb → Emb → ℚ} {fs : FS} {now : ℕ} {probe : FName}
    {threshold : ℚ} {topk : ℕ} {s1 : ServerState}
    (hlive : pathLive fs probe = true)
    (hne : needEmbed s1.db (basename probe) = false) :
    matchProbeStage extract sim fs now probe threshold topk s1 =
      finishMatch sim (basename probe) s1 threshold topk := by
  unfold matchProbeStage
  rw [if_neg (by simp [hlive]), if_neg (by simp [hne])]

/-- A probe that exists on disk but has no registry entry and yields zero
embeddings ends in the 500 `Probe embedding missing after processing`
response. -/
lemma matchProbeStage_noEntry {extract : FName → List Emb}
    {sim : Emb → Emb → ℚ} {fs : FS} {now : ℕ} {probe : FName}
    {threshold : ℚ} {topk : ℕ} {s1 : ServerState}
    (hlive : pathLive fs probe = true) (hempty : extract probe = [])
    (hnone : lookupImg s1.db (basename probe) = none) :
    matchProbeStage extract sim fs now probe threshold topk s1 =
      (s1, .probeMissingAfterProcessing) := by
  rw [matchProbeStage_embed_noFace hlive (needEmbed_of_none hnone) hempty,
    finishMatch_none hnone]

/-- A live probe whose extraction finds at least one face always reaches a
successful match response, with its own record present and the registry
flushed. -/
lemma matchProbeStage_ok {extract : FName → List Emb} {sim : Emb → Emb → ℚ}
    {fs : FS} {now : ℕ} {probe : FName} {threshold : ℚ} {topk : ℕ}
    {s1 : ServerState} (hs1 : s1.saved = s1.db)
    (hlive : pathLive fs probe = true) (hex : extract probe ≠ []) :
    (∃ ms, (matchProbeStage extract sim fs now probe threshold topk s1).2 =
      .ok (basename probe) ms) ∧
    (lookupImg
      (matchProbeStage extract sim fs now probe threshold topk s1).1.db
      (basename probe)).isSome ∧
    (matchProbeStage extract sim fs now probe threshold topk s1).1.saved =
      (matchProbeStage extract sim fs now probe threshold topk s1).1.db ∧
    (∀ k, (lookupImg s1.db k).isSome →
      (lookupImg
        (matchProbeStage extract sim fs now probe threshold topk s1).1.db
        k).isSome) := by
  have hpsi := @psi_added extract fs now probe s1 hlive hex
  by_cases hne : needEmbed s1.db (basename probe) = true
  · have h1 := @matchProbeStage_embed extract sim fs now probe threshold
      topk s1 hlive hne hex
    have h2 : lookupImg (processSingleImage extract fs now probe s1).1.db
        (basename probe) = some
          { name := nameOf (basename probe), path := probe,
            embeddings := extract probe, enrolledAt := now } := by
      rw [hpsi]
      exact lookupImg_setRecord_self _ _ _
    rw [h1, finishMatch_some h2]
    refine ⟨⟨_, rfl⟩, by rw [h2]; rfl, ?_, ?_⟩
    · rw [hpsi]
    · intro k hk
      rw [hpsi]
      exact lookupImg_setRecord_isSome _ _ hk
  · have hne' : needEmbed s1.db (basename probe) = false := by
      cases hv : needEmbed s1.db (basename probe) with
      | false => rfl
      | true => exact absurd hv hne
    obtain ⟨e, hq⟩ : ∃ e, lookupImg s1.db (basename probe) = some e := by
      cases hq : lookupImg s1.db (basename probe) with
      | none => exact absurd (needEmbed_of_none hq) hne
      | some e => exact ⟨e, rfl⟩
    rw [matchProbeStage_noEmbed hlive hne', finishMatch_some hq]
    exact ⟨⟨_, rfl⟩, by rw [hq]; rfl, hs1, fun k hk => hk⟩

/-! ### C7 : probe with zero embeddings -/

/-- C7 (amended): a probe that exists on disk, yields zero embeddings, and
is enrolled under neither its own name nor any default-directory file name
makes `/match` fail — the handler never returns a successful result (let
alone an empty successful one) — but the failure is part_001's 500
`Probe embedding missing after processing` response, not a `NoFaceDetected`
error (human.js's `/match` is the variant that answers 400
`No face found in probe image`). -/
theorem match_zero_embeddings_failure
    (extract : FName → List Emb) (sim : Emb → Emb → ℚ) (fs : FS) (now : ℕ)
    (probe : FName) (threshold : ℚ) (topk : ℕ) (s : ServerState)
    (hlive : pathLive fs probe = true)
    (hempty : extract probe = [])
    (hnot : lookupImg s.db (basename probe) = none)
    (hsl : ∀ f ∈ fs.dirListing, f.contains '/' = false)
    (hnd : basename probe ∉ fs.dirListing) :
    (matchHandler extract sim fs now (some probe) threshold topk s).2 =
      .probeMissingAfterProcessing ∧
    ∀ pf ms,
      (matchHandler extract sim fs now (some probe) threshold topk s).2 ≠
        .ok pf ms := by
  have hfsl : ∀ g ∈ fs.dirListing.filter isImage, g.contains '/' = false :=
    fun g hg => hsl g (List.mem_filter.mp hg).1
  have hnd' : basename probe ∉ fs.dirListing.filter isImage :=
    fun hm => hnd (List.mem_filter.mp hm).1
  have hnone1 : lookupImg
      (if fs.dirOk then
        matchSyncLoop extract fs now (fs.dirListing.filter isImage) s
      else s).db (basename probe) = none := by
    by_cases hd : fs.dirOk
    · rw [if_pos hd,
        matchSyncLoop_lookup_ne extract fs now _ s _ hfsl hnd']
      exact hnot
    · rw [if_neg hd]
      exact hnot
  have hh : matchHandler extract sim fs now (some probe) threshold topk s =
      matchProbeStage extract sim fs now probe threshold topk
        { db := (if fs.dirOk then
            matchSyncLoop extract fs now (fs.dirListing.filter isImage) s
          else s).db,
          saved := (if fs.dirOk then
            matchSyncLoop extract fs now (fs.dirListing.filter isImage) s
          else s).db } := rfl
  have hstage := @matchProbeStage_noEntry extract sim fs now probe threshold
    topk
    { db := (if fs.dirOk then
        matchSyncLoop extract fs now (fs.dirListing.filter isImage) s
      else s).db,
      saved := (if fs.dirOk then
        matchSyncLoop extract fs now (fs.dirListing.filter isImage) s
      else s).db } hlive hempty hnone1
  constructor
  · rw [hh, hstage]
  · intro pf ms h
    rw [hh, hstage] at h
    simp at h

/-- Images directory that is empty; the probe lives outside it. -/
def fsProbeOnly : FS := ⟨("/img").data, [], [("/p/probe.jpg").data], true⟩

/-- C7 counterexample: a live, never-enrolled probe in which the extractor
finds no face gets the 500 `Probe embedding missing after processing`
response (the spec's `ProbeOwnRecordMissing` shape), not a `NoFaceDetected`
failure; it is still not a successful empty result. -/
theorem match_noface_counterexample :
    (matchHandler noFaceExtract (fun _ _ => (1 : ℚ)) fsProbeOnly 0
      (some ("/p/probe.jpg").data) 0 5 ⟨[], []⟩).2 =
      .probeMissingAfterProcessing ∧
    (matchHandler noFaceExtract (fun _ _ => (1 : ℚ)) fsProbeOnly 0
      (some ("/p/probe.jpg").data) 0 5 ⟨[], []⟩).2 ≠
      .ok (("probe.jpg").data) [] := by
  refine ⟨by decide, by decide⟩

/-- Witness for C7 (amended) at the concrete no-face probe. -/
theorem match_zero_embeddings_failure_witness :
    (matchHandler noFaceExtract (fun _ _ => (1 : ℚ)) fsProbeOnly 0
      (some ("/p/probe.jpg").data) 0 5 ⟨[], []⟩).2 =
      .probeMissingAfterProcessing ∧
    ∀ pf ms,
      (matchHandler noFaceExtract (fun _ _ => (1 : ℚ)) fsProbeOnly 0
        (some ("/p/probe.jpg").data) 0 5 ⟨[], []⟩).2 ≠ .ok pf ms :=
  match_zero_embeddings_failure noFaceExtract (fun _ _ => (1 : ℚ))
    fsProbeOnly 0 ("/p/probe.jpg").data 0 5 ⟨[], []⟩
    (by decide) (by decide) (by decide) (by decide) (by decide)

/-! ### C10 : `/match` mutates and flushes the registry -/

/-- C10: `/match` is not a pure query. For a live probe whose extraction
finds at least one face, the handler answers successfully, and afterwards
the probe's own record is present in the registry and the durable store
equals the in-memory registry (the handler always ends on a `saveDB`-fresh
state); moreover every eligible default-directory image that exists, has a
face, was missing from the registry, or not, ends up enrolled. -/
theorem match_mutates_registry
    (extract : FName → List Emb) (sim : Emb → Emb → ℚ) (fs : FS) (now : ℕ)
    (probe : FName) (threshold : ℚ) (topk : ℕ) (s : ServerState)
    (hlive : pathLive fs probe = true)
    (hex : extract probe ≠ []) :
    (∃ ms, (matchHandler extract sim fs now (some probe) threshold topk s).2 =
      .ok (basename probe) ms) ∧
    (lookupImg (matchHandler extract sim fs now (some probe) threshold topk
      s).1.db (basename probe)).isSome ∧
    (matchHandler extract sim fs now (some probe) threshold topk s).1.saved =
      (matchHandler extract sim fs now (some probe) threshold topk s).1.db ∧
    (∀ f ∈ fs.dirListing, isImage f = true → fs.dirOk = true →
      (∀ g ∈ fs.dirListing, g.contains '/' = false) →
      pathLive fs (joinPath fs.dir f) = true →
      extract (joinPath fs.dir f) ≠ [] →
      (lookupImg (matchHandler extract sim fs now (some probe) threshold topk
        s).1.db f).isSome) := by
  have hh : matchHandler extract sim fs now (some probe) threshold topk s =
      matchProbeStage extract sim fs now probe threshold topk
        { db := (if fs.dirOk then
            matchSyncLoop extract fs now (fs.dirListing.filter isImage) s
          else s).db,
          saved := (if fs.dirOk then
            matchSyncLoop extract fs now (fs.dirListing.filter isImage) s
          else s).db } := rfl
  have hst := @matchProbeStage_ok extract sim fs now probe threshold topk
    { db := (if fs.dirOk then
        matchSyncLoop extract fs now (fs.dirListing.filter isImage) s
      else s).db,
      saved := (if fs.dirOk then
        matchSyncLoop extract fs now (fs.dirListing.filter isImage) s
      else s).db } rfl hlive hex
  rw [hh]
  refine ⟨hst.1, hst.2.1, hst.2.2.1, ?_⟩
  intro f hf hi hd hsl hlv hex2
  apply hst.2.2.2 f
  show (lookupImg (if fs.dirOk then
      matchSyncLoop extract fs now (fs.dirListing.filter isImage) s
    else s).db f).isSome
  rw [if_pos hd]
  exact matchSyncLoop_establish extract fs now _ s
    (fun g hg => hsl g (List.mem_filter.mp hg).1) f
    (List.mem_filter.mpr ⟨hf, hi⟩) hlv hex2

/-- Witness for C10 at a concrete probe. -/
theorem match_mutates_registry_witness :
    (∃ ms, (matchHandler oneFaceExtract (fun _ _ => (1 : ℚ)) fsProbeOnly 0
      (some ("/p/probe.jpg").data) 0 5 ⟨[], []⟩).2 =
      .ok (basename (("/p/probe.jpg").data)) ms) ∧
    (lookupImg (matchHandler oneFaceExtract (fun _ _ => (1 : ℚ)) fsProbeOnly
      0 (some ("/p/probe.jpg").data) 0 5 ⟨[], []⟩).1.db
      (basename (("/p/probe.jpg").data))).isSome ∧
    (matchHandler oneFaceExtract (fun _ _ => (1 : ℚ)) fsProbeOnly 0
      (some ("/p/probe.jpg").data) 0 5 ⟨[], []⟩).1.saved =
      (matchHandler oneFaceExtract (fun _ _ => (1 : ℚ)) fsProbeOnly 0
        (some ("/p/probe.jpg").data) 0 5 ⟨[], []⟩).1.db ∧
    (∀ f ∈ fsProbeOnly.dirListing, isImage f = true →
      fsProbeOnly.dirOk = true →
      (∀ g ∈ fsProbeOnly.dirListing, g.contains '/' = false) →
      pathLive fsProbeOnly (joinPath fsProbeOnly.dir f) = true →
      oneFaceExtract (joinPath fsProbeOnly.dir f) ≠ [] →
      (lookupImg (matchHandler oneFaceExtract (fun _ _ => (1 : ℚ))
        fsProbeOnly 0 (some ("/p/probe.jpg").data) 0 5
        ⟨[], []⟩).1.db f).isSome) :=
  match_mutates_registry oneFaceExtract (fun _ _ => (1 : ℚ)) fsProbeOnly 0
    ("/p/probe.jpg").data 0 5 ⟨[], []⟩ (by decide) (by decide)

end CloakLib
